import Mathlib

/-!
Verification development for the Bellman derivation playground.

The TypeScript sources are shallowly embedded:
* expression strings are `List Char` (all strings involved are ASCII);
* JavaScript exceptions are `Except (List Char)` values carrying the message;
* the specific regular expressions appearing in the rule catalog are embedded
  as explicit pattern-item lists (see `PatItem`); every star item occurring in
  those patterns is followed by a literal whose first character the star can
  never consume, so greedy matching without backtracking is exact there;
* JavaScript numbers are modelled as `ℚ` (the concrete values exercised by the
  claims are small integers and unit fractions, on which binary64 arithmetic
  is exact).

Note on string literals: the braces of the original string literals are
written with the escapes \x7b and \x7d, and apostrophes with \x27; this is
only a spelling of the very same characters.
-/

namespace BDP

/-- Character class of the JavaScript whitespace escape and of `String.trim`:
space, tab, line terminators and the Unicode space separators. -/
def isJsWs (c : Char) : Bool :=
  c == ' ' || c == '\t' || c == '\n' || c == '\x0b' || c == '\x0c' || c == '\r' ||
  c == ' ' || c == ' ' || decide (' ' ≤ c ∧ c ≤ ' ') ||
  c == ' ' || c == ' ' || c == ' ' || c == ' ' ||
  c == '　' || c == '﻿'

/-- Characters matched by the regular-expression dot (anything but a line
terminator). -/
def dotCompat (c : Char) : Bool :=
  !(c == '\n' || c == '\r' || c == ' ' || c == ' ')

/-- Replace every maximal whitespace run by a single space, as
`s.replace(/\s+/g, " ")` does.  The flag records whether the previous input
character belonged to a run that has already emitted its space. -/
def collapseGo : Bool → List Char → List Char
  | _, [] => []
  | inRun, c :: rest =>
    if isJsWs c then
      if inRun then collapseGo true rest else ' ' :: collapseGo true rest
    else c :: collapseGo false rest

/-- JavaScript `String.trim`: remove whitespace from both ends. -/
def trimJs (s : List Char) : List Char :=
  ((s.dropWhile isJsWs).reverse.dropWhile isJsWs).reverse

/-- The catalog helper `const normalize = (s) => s.replace(/\s+/g, " ").trim()` from the rule
catalog module. -/
def normalize (s : List Char) : List Char :=
  trimJs (collapseGo false s)

/-- One item of an embedded regular expression: a literal character block, a
whitespace star `\s*`, the mis-escaped star `\\s*` (a literal backslash having
been consumed into the preceding literal, it denotes zero or more letters s),
or the optional comma `,?`. -/
inductive PatItem : Type
  | lit (cs : List Char)
  | wstar
  | sstar
  | optComma

/-- Match a pattern at the head of `s`; on success return the rest of `s`.
Each star is greedy; in every pattern of the catalog the item after a star
begins with a character the star cannot consume, so this is the regex match. -/
def matchItems : List PatItem → List Char → Option (List Char)
  | [], s => some s
  | PatItem.lit l :: ps, s =>
    if l.isPrefixOf s then matchItems ps (s.drop l.length) else none
  | PatItem.wstar :: ps, s => matchItems ps (s.dropWhile isJsWs)
  | PatItem.sstar :: ps, s => matchItems ps (s.dropWhile (fun c => c == 's'))
  | PatItem.optComma :: ps, s =>
    match s with
    | ',' :: t => matchItems ps t
    | _ => matchItems ps s

/-- Embeds `re.test(s)` for an unanchored embedded pattern: a match starts at some
position. -/
def testPat (p : List PatItem) (s : List Char) : Bool :=
  (List.range (s.length + 1)).any fun i => (matchItems p (s.drop i)).isSome

/-- Embeds `re.test(s)` for a pattern anchored on both sides by caret and dollar:
the whole string is one match. -/
def anchoredTest (p : List PatItem) (s : List Char) : Bool :=
  match matchItems p s with
  | some [] => true
  | _ => false

/-- Worker for `replaceAll`.  The fuel starts at the length of the input;
since every pattern in the catalog contains a nonempty literal, each step
consumes at least one input character and the fuel never runs out. -/
def replaceAllAux (p : List PatItem) (repl : List Char) : Nat → List Char → List Char
  | _, [] => []
  | 0, s => s
  | fuel + 1, c :: rest =>
    match matchItems p (c :: rest) with
    | some rem => repl ++ replaceAllAux p repl fuel rem
    | none => c :: replaceAllAux p repl fuel rest

/-- Embeds `s.replace(re, repl)` with a global regex: leftmost, non-overlapping. -/
def replaceAll (p : List PatItem) (repl : List Char) (s : List Char) : List Char :=
  replaceAllAux p repl s.length s

/-- Embeds `s.includes(needle)`: the needle occurs at some position. -/
def includesSub (needle s : List Char) : Bool :=
  (List.range (s.length + 1)).any fun i => needle.isPrefixOf (s.drop i)

/-- Embeds `s.indexOf(needle, start)`: the least position at or after `start` where
`needle` occurs. -/
def indexOfFrom (needle s : List Char) (start : Nat) : Option Nat :=
  ((List.range (s.length + 1)).filter
    (fun i => decide (start ≤ i) && needle.isPrefixOf (s.drop i))).head?

/-- Embeds `s.lastIndexOf(c)` for a single character. -/
def lastIndexOfChar (c : Char) (s : List Char) : Option Nat :=
  ((List.range s.length).filter (fun i => s.getD i ' ' == c)).getLast?

/-- Embeds `s.slice(a, b)` for nonnegative indices. -/
def jsSlice (a b : Nat) (s : List Char) : List Char :=
  (s.take b).drop a

/-- Drop a literal from the head of `s` if it is there. -/
def dropLit (l s : List Char) : Option (List Char) :=
  if l.isPrefixOf s then some (s.drop l.length) else none

/-- Structure `DerivationStep` from types.ts. -/
structure DerivationStep : Type where
  latex : List Char
  ruleId : Option (List Char) := none
  ruleName : Option (List Char) := none
  explanation : Option (List Char) := none

/-- Structure `RewriteRule` from types.ts.  `appliesTo` and `transform` may raise in
TypeScript, hence the `Except` codomain carrying the message. -/
structure RewriteRule : Type where
  id : List Char
  name : List Char
  nameLatex : Option (List Char) := none
  appliesTo : List Char → Except (List Char) Bool
  transform : List Char → Except (List Char) (List Char)
  explanation : List Char

/-- Function `applicableRules` from ruleEngine.ts: filter the catalog, treating a
raising predicate as false. -/
def applicableRules (latex : List Char) (rules : List RewriteRule) : List RewriteRule :=
  rules.filter fun r =>
    match r.appliesTo latex with
    | Except.ok b => b
    | Except.error _ => false

/-- Function `applyRule` from ruleEngine.ts: apply the transform and build the next
step; a transform failure is propagated. -/
def applyRule (current : DerivationStep) (rule : RewriteRule) : Except (List Char) DerivationStep :=
  match rule.transform current.latex with
  | Except.error e => Except.error e
  | Except.ok nextLatex =>
    Except.ok
      { latex := nextLatex
        ruleId := some rule.id
        ruleName := some rule.name
        explanation := some rule.explanation }

/-- The fixed start step of App.tsx. -/
def START : DerivationStep :=
  { latex := ("v(s)").data
    ruleName := some (("Start").data)
    explanation := some (("Start from the value function for a state s.").data) }

/-- History truncation of App.tsx: `prev.slice(0, activeIndex + 1).concat(next)`
together with `setActiveIndex(activeIndex + 1)`. -/
def advance (steps : List DerivationStep) (activeIndex : Nat) (next : DerivationStep) :
    List DerivationStep × Nat :=
  (steps.take (activeIndex + 1) ++ [next], activeIndex + 1)

/-! The rule catalog (rules/mrpBellmanRules.ts).  All string literals below
are the runtime values of the TypeScript literals: a TypeScript escape of two
backslashes denotes one backslash character, so for instance the TypeScript
literal with four backslashes before mathbb denotes two backslash characters
there, and the regex source written in the file is decoded item by item. -/

/-- Pattern of the regex matching v with optional spaces around parentheses. -/
def patV : List PatItem :=
  [PatItem.lit (("v").data), PatItem.wstar, PatItem.lit (("(").data), PatItem.wstar,
   PatItem.lit (("s").data), PatItem.wstar, PatItem.lit ((")").data)]

/-- Pattern of the regex matching a v with pi subscript. -/
def patVpi : List PatItem :=
  [PatItem.lit (("v_").data), PatItem.wstar, PatItem.lit (("\\pi").data), PatItem.wstar,
   PatItem.lit (("(").data), PatItem.wstar, PatItem.lit (("s").data), PatItem.wstar,
   PatItem.lit ((")").data)]

/-- Replacement text of the def-value rule (two backslashes before mathbb and
mid at runtime). -/
def defValueRepl : List Char := ("\\\\mathbb\x7bE\x7d[G_t\\\\mid S_t=s]").data

def defValueRule : RewriteRule :=
  { id := ("def-value").data
    name := ("Definition of value").data
    nameLatex := some (("v(s)=\\mathbb\x7bE\x7d[G_t\\mid S_t=s]").data)
    appliesTo := fun latex => Except.ok (testPat patV latex || testPat patVpi latex)
    transform := fun latex =>
      Except.ok (normalize (replaceAll patV defValueRepl (replaceAll patVpi defValueRepl latex)))
    explanation := ("By definition, the value of state s is the expected return starting from s.").data }

/-- The sum token that def-return checks for and produces. -/
def sumTok : List Char := ("\\\\sum_\x7bk=0\x7d^\x7b\\\\infty\x7d").data

def defReturnRepl : List Char :=
  ("\\\\sum_\x7bk=0\x7d^\x7b\\\\infty\x7d \\\\gamma^k R_\x7bt+1+k\x7d").data

def defReturnRule : RewriteRule :=
  { id := ("def-return").data
    name := ("Expand return definition").data
    nameLatex := some (("G_t=\\sum_\x7bk=0\x7d^\x7b\\infty\x7d\\gamma^k R_\x7bt+1+k\x7d").data)
    appliesTo := fun latex =>
      Except.ok (includesSub (("G_t").data) latex && !(includesSub sumTok latex))
    transform := fun latex =>
      Except.ok (normalize (replaceAll [PatItem.lit (("G_t").data)] defReturnRepl latex))
    explanation := ("Return is the discounted sum of future rewards.").data }

/-- The unroll-return regex, decoded: its doubled escapes make it demand a
backslash before each brace and caret, and its two whitespace stars decode as
one literal backslash followed by any number of letters s. -/
def unrollPat : List PatItem :=
  [PatItem.lit (("\\\\sum_\\\x7bk=0\\\x7d\\^\\\x7b\\\\infty\\\x7d\\").data), PatItem.sstar,
   PatItem.lit (("\\\\gamma\\^k\\").data), PatItem.sstar,
   PatItem.lit (("R_\\\x7bt\\+1\\+k\\\x7d").data)]

def unrollMsg : List Char :=
  ("Expected the return sum in the form \\\\sum_\x7bk=0\x7d^\x7b\\\\infty\x7d \\\\gamma^k R_\x7bt+1+k\x7d").data

def unrollRepl : List Char :=
  ("R_\x7bt+1\x7d + \\\\gamma\\\\sum_\x7bk=0\x7d^\x7b\\\\infty\x7d \\\\gamma^k R_\x7bt+2+k\x7d").data

def unrollReturnRule : RewriteRule :=
  { id := ("unroll-return").data
    name := ("Unroll return").data
    nameLatex := some (("G_t = R_\x7bt+1\x7d + \\gamma G_\x7bt+1\x7d").data)
    appliesTo := fun latex =>
      Except.ok (includesSub sumTok latex || includesSub (("R_\x7bt+1+k\x7d").data) latex)
    transform := fun latex =>
      if testPat unrollPat latex then
        Except.ok (normalize (replaceAll unrollPat unrollRepl latex))
      else Except.error unrollMsg
    explanation := ("Split the first reward from the discounted sum (index shift).").data }

/-- The opening expectation token linearity looks for (single backslash). -/
def eOpen : List Char := ("\\mathbb\x7bE\x7d[").data

def midTok : List Char := ("\\mid").data

def linMsg1 : List Char :=
  ("Expected an expression starting with \\\\mathbb\x7bE\x7d[ ... ]").data

def linMsg2 : List Char :=
  ("Expected a conditional bar \\\\mid inside the expectation.").data

def linMsg3 : List Char :=
  ("Expected a closing \x27]\x27 for \\\\mathbb\x7bE\x7d[ ... ].").data

def linMsg4 : List Char :=
  ("Expected inside expectation: R_\x7bt+1\x7d + \\\\gamma ( ... )").data

/-- The anchored inner match of linearity: a leading return symbol, a plus, a
gamma, then a greedy dot-plus capture up to the end of the string.  The only
backtracking the regex engine can do is to hand trailing whitespace of the
star back to the capture, which matters exactly when nothing follows the
whitespace; both branches are spelled out below. -/
def linRestMatch (inside : List Char) : Option (List Char) :=
  match dropLit (("R_\x7bt+1\x7d").data) inside with
  | none => none
  | some s1 =>
    match dropLit (("+").data) (s1.dropWhile isJsWs) with
    | none => none
    | some s2 =>
      match dropLit (("\\gamma").data) (s2.dropWhile isJsWs) with
      | none => none
      | some rem =>
        match rem.dropWhile isJsWs with
        | [] =>
          match (rem.takeWhile isJsWs).getLast? with
          | none => none
          | some c => if dotCompat c then some [c] else none
        | t => if t.all dotCompat then some t else none

/-- The transform of the linearity rule, using indexOf, lastIndexOf, slice and
trim exactly as the source does. -/
def linearityTransform (latex : List Char) : Except (List Char) (List Char) :=
  match indexOfFrom eOpen latex 0 with
  | none => Except.error linMsg1
  | some start =>
    match indexOfFrom midTok latex start with
    | none => Except.error linMsg2
    | some mid =>
      match lastIndexOfChar ']' latex with
      | none => Except.error linMsg3
      | some stop =>
        if stop < mid then Except.error linMsg3
        else
          let inside := trimJs (jsSlice (start + eOpen.length) mid latex)
          let cond := trimJs (jsSlice (mid + midTok.length) stop latex)
          match linRestMatch inside with
          | none => Except.error linMsg4
          | some cap =>
            let rest := trimJs cap
            Except.ok ((("\\mathbb\x7bE\x7d[R_\x7bt+1\x7d\\mid ").data) ++ cond ++
              (("] + \\gamma\\,\\mathbb\x7bE\x7d[").data) ++ rest ++
              (("\\mid ").data) ++ cond ++ (("]").data))

def linearityRule : RewriteRule :=
  { id := ("linearity").data
    name := ("Linearity of expectation").data
    nameLatex := some (("\\mathbb\x7bE\x7d[X+\\gamma Y\\mid Z]=\\mathbb\x7bE\x7d[X\\mid Z]+\\gamma\\mathbb\x7bE\x7d[Y\\mid Z]").data)
    appliesTo := fun latex =>
      Except.ok (includesSub eOpen latex && includesSub (("R_\x7bt+1\x7d").data) latex &&
        includesSub (("+").data) latex && includesSub (("\\gamma").data) latex &&
        includesSub midTok latex)
    transform := linearityTransform
    explanation := ("Expectation is linear; split sums and pull out constants.").data }

/-- The define-r applicability regex, decoded: double backslashes before
mathbb and mid, ordinary braces, real whitespace stars. -/
def defineRAppliesPat : List PatItem :=
  [PatItem.lit (("\\\\mathbb\x7bE\x7d[R_\x7bt+1\x7d\\\\mid").data), PatItem.wstar,
   PatItem.lit (("S_t").data), PatItem.wstar, PatItem.lit (("=").data), PatItem.wstar,
   PatItem.lit (("s]").data)]

/-- The define-r replacement regex, decoded: its extra escaping demands a
backslash before every brace and bracket, three backslashes before mid, and
turns each whitespace star into a literal backslash plus any number of s. -/
def defineRPat : List PatItem :=
  [PatItem.lit (("\\\\mathbb\\\x7bE\\\x7d\\[R_\\\x7bt\\+1\\\x7d\\\\\\mid\\").data), PatItem.sstar,
   PatItem.lit (("S_t\\").data), PatItem.sstar, PatItem.lit (("=\\").data), PatItem.sstar,
   PatItem.lit (("s\\]").data)]

def defineRRule : RewriteRule :=
  { id := ("define-r").data
    name := ("Define expected reward").data
    nameLatex := some (("r(s)=\\mathbb\x7bE\x7d[R_\x7bt+1\x7d\\mid S_t=s]").data)
    appliesTo := fun latex => Except.ok (testPat defineRAppliesPat latex)
    transform := fun latex =>
      Except.ok (normalize (replaceAll defineRPat (("r(s)").data) latex))
    explanation := ("Define r(s) as the expected one-step reward from state s.").data }

/-- Decoded prefix of the total-expectation regexes. -/
def tePrefix : List Char := ("\\\\mathbb\\\x7bE\\\x7d\\[").data

def teAlt1 : List Char := ("G_\\\x7bt\\+1\\\x7d").data

def teAlt2 : List Char := ("G_\x7bt\\+1\x7d").data

def teAlt3 : List Char := ("\\\\sum_\\\x7bk=0\\\x7d\\^\\\x7b\\\\infty\\\x7d").data

/-- Decoded tail of the total-expectation regexes: three backslashes before
mid and mis-escaped whitespace stars. -/
def teRest : List PatItem :=
  [PatItem.lit (("\\\\\\mid\\").data), PatItem.sstar, PatItem.lit (("S_t\\").data),
   PatItem.sstar, PatItem.lit (("=\\").data), PatItem.sstar, PatItem.lit (("s\\]").data)]

/-- The applicability test of total-expectation: prefix, one of three
alternatives, a dot-star, then the tail; existence over start positions and
dot-star splits is exactly regex-test semantics. -/
def teApplies (latex : List Char) : Bool :=
  (List.range (latex.length + 1)).any fun p =>
    let s := latex.drop p
    tePrefix.isPrefixOf s &&
      ([teAlt1, teAlt2, teAlt3].any fun alt =>
        alt.isPrefixOf (s.drop tePrefix.length) &&
          ((List.range (((s.drop tePrefix.length).drop alt.length).length + 1)).any fun k =>
            (((s.drop tePrefix.length).drop alt.length).take k).all dotCompat &&
              (matchItems teRest (((s.drop tePrefix.length).drop alt.length).drop k)).isSome))

/-- The greedy dot-plus capture of the total-expectation match regex at a
given position: the longest nonempty line-terminator-free take whose
remainder matches the tail. -/
def teCapAt (rem : List Char) : Option (List Char) :=
  ((List.range (rem.length + 1)).reverse).findSome? fun k =>
    if decide (1 ≤ k) && (rem.take k).all dotCompat &&
        (matchItems teRest (rem.drop k)).isSome
    then some (rem.take k) else none

/-- Embeds `latex.match(pat)` group one for the total-expectation transform regex:
leftmost start position, greedy capture there. -/
def teMatch (latex : List Char) : Option (List Char) :=
  (List.range (latex.length + 1)).findSome? fun p =>
    let s := latex.drop p
    if tePrefix.isPrefixOf s then teCapAt (s.drop tePrefix.length) else none

def teMsg : List Char :=
  ("Expected \\\\mathbb\x7bE\x7d[ ... \\\\\\mid S_t = s ]").data

def teTmplL : List Char :=
  ("\\\\sum_\x7bs\x27\x7d p(s\x27\\\\\\mid s)\\\\,\\\\mathbb\x7bE\x7d[").data

def teTmplR : List Char := ("\\\\\\mid S_\x7bt+1\x7d=s\x27]").data

def teTransform (latex : List Char) : Except (List Char) (List Char) :=
  match teMatch latex with
  | none => Except.error teMsg
  | some cap => Except.ok (normalize (teTmplL ++ trimJs cap ++ teTmplR))

def totalExpectationRule : RewriteRule :=
  { id := ("total-expectation-next-state").data
    name := ("Law of total expectation over next state").data
    nameLatex := some (("\\mathbb\x7bE\x7d[f(S_\x7bt+1\x7d)\\mid S_t=s]=\\sum_\x7bs\x27\x7dp(s\x27\\mid s)f(s\x27)").data)
    appliesTo := fun latex => Except.ok (teApplies latex)
    transform := teTransform
    explanation := ("Condition on S_\x7bt+1\x7d using the law of total expectation (Markov chain transitions).").data }

def vsRepl : List Char := ("v(s\x27)").data

def vsPat1 : List PatItem :=
  [PatItem.lit (("\\\\mathbb\\\x7bE\\\x7d\\[G_\\\x7bt\\+1\\\x7d\\\\\\mid\\").data), PatItem.sstar,
   PatItem.lit (("S_\\\x7bt\\+1\\\x7d=s\x27\\]").data)]

def vsPat2 : List PatItem :=
  [PatItem.lit (("\\\\mathbb\\\x7bE\\\x7d\\[G_\x7bt\\+1\x7d\\\\\\mid\\").data), PatItem.sstar,
   PatItem.lit (("S_\\\x7bt\\+1\\\x7d=s\x27\\]").data)]

def vsPat3 : List PatItem :=
  [PatItem.lit (("\\\\mathbb\\\x7bE\\\x7d\\[\\\\sum_\\\x7bk=0\\\x7d\\^\\\x7b\\\\infty\\\x7d\\").data),
   PatItem.sstar, PatItem.lit (("\\\\gamma\\^k\\").data), PatItem.sstar,
   PatItem.lit (("R_\\\x7bt\\+2\\+k\\\x7d\\\\\\mid\\").data), PatItem.sstar,
   PatItem.lit (("S_\\\x7bt\\+1\\\x7d=s\x27\\]").data)]

def valueSubstitutionRule : RewriteRule :=
  { id := ("value-substitution").data
    name := ("Substitute value at next state").data
    nameLatex := some (("\\mathbb\x7bE\x7d[G_\x7bt+1\x7d\\mid S_\x7bt+1\x7d=s\x27]=v(s\x27)").data)
    appliesTo := fun latex =>
      Except.ok (includesSub (("\\\\mathbb\x7bE\x7d[").data) latex &&
        includesSub (("\\\\\\mid S_\x7bt+1\x7d=s\x27").data) latex)
    transform := fun latex =>
      Except.ok (normalize (replaceAll vsPat3 vsRepl (replaceAll vsPat2 vsRepl
        (replaceAll vsPat1 vsRepl latex))))
    explanation := ("Recognize the expected future return from the next state as v(s\x27).").data }

def asmPat1 : List PatItem :=
  [PatItem.lit (("r\\(s\\)\\").data), PatItem.sstar, PatItem.lit (("\\+\\").data),
   PatItem.sstar, PatItem.lit (("\\\\gamma\\").data), PatItem.sstar,
   PatItem.lit (("\\\\sum_\\\x7bs\x27\\\x7d\\").data), PatItem.sstar,
   PatItem.lit (("p\\(s\x27\\\\\\mid\\").data), PatItem.sstar,
   PatItem.lit (("s\\)\\").data), PatItem.sstar, PatItem.optComma,
   PatItem.lit (("\\").data), PatItem.sstar, PatItem.lit (("v\\(s\x27\\)").data)]

def asmPat2 : List PatItem :=
  [PatItem.lit (("r\\(s\\)\\").data), PatItem.sstar, PatItem.lit (("\\+\\").data),
   PatItem.sstar, PatItem.lit (("\\\\gamma\\").data), PatItem.sstar,
   PatItem.lit (("\\\\sum_\\\x7bs\x27\\\x7d\\").data), PatItem.sstar,
   PatItem.lit (("p\\(s\x27\\\\\\mid\\").data), PatItem.sstar,
   PatItem.lit (("s\\)\\\\,\\").data), PatItem.sstar, PatItem.lit (("v\\(s\x27\\)").data)]

def asmMsg : List Char :=
  ("Expected r(s) + \\\\gamma \\\\sum_\x7bs\x27\x7d p(s\x27|s) v(s\x27)").data

def asmResult : List Char :=
  ("v(s) = r(s) + \\\\gamma \\\\sum_\x7bs\x27\x7d p(s\x27\\\\\\mid s) v(s\x27)").data

def assembleBellmanRule : RewriteRule :=
  { id := ("assemble-bellman").data
    name := ("Assemble Bellman expectation equation").data
    nameLatex := some (("v(s)=r(s)+\\gamma\\sum_\x7bs\x27\x7dp(s\x27\\mid s)v(s\x27)").data)
    appliesTo := fun latex =>
      Except.ok (includesSub (("r(s)").data) latex &&
        includesSub (("\\\\sum_\x7bs\x27\x7d").data) latex)
    transform := fun latex =>
      if !(anchoredTest asmPat1 latex) then
        if !(anchoredTest asmPat2 latex) then Except.error asmMsg
        else Except.ok asmResult
      else Except.ok asmResult
    explanation := ("This is the Bellman expectation equation for an MRP.").data }

/-- The ordered rule catalog. -/
def mrpBellmanRules : List RewriteRule :=
  [defValueRule, defReturnRule, unrollReturnRule, linearityRule, defineRRule,
   totalExpectationRule, valueSubstitutionRule, assembleBellmanRule]

instance {ε α : Type} [DecidableEq ε] [DecidableEq α] : DecidableEq (Except ε α) := fun a b =>
  match a, b with
  | Except.error e, Except.error f =>
    if h : e = f then isTrue (by subst h; rfl) else isFalse (fun hh => h (by cases hh; rfl))
  | Except.error _, Except.ok _ => isFalse (fun hh => by cases hh)
  | Except.ok _, Except.error _ => isFalse (fun hh => by cases hh)
  | Except.ok x, Except.ok y =>
    if h : x = y then isTrue (by subst h; rfl) else isFalse (fun hh => h (by cases hh; rfl))

/-! The matrix and vector kernel (utils/matrix.ts).  Numbers are modelled as
rationals; every concrete value exercised below is exactly representable and
exactly computed in binary64 as well. -/

abbrev Vec : Type := List ℚ

abbrev Mat : Type := List (List ℚ)

/-- The failure taxonomy of the kernel, named as in the specification; the
comments give the thrown messages.  `typeErr` models the TypeError raised by
reading the length of the first row of an empty matrix. -/
inductive MatrixError : Type
  | shapeMismatch
  | dimensionMismatch
  | singularMatrix
  | typeErr
  deriving DecidableEq

def identity (n : Nat) : Mat :=
  (List.range n).map fun i => (List.range n).map fun j => if i = j then (1 : ℚ) else 0

def matScale (A : Mat) (c : ℚ) : Mat :=
  A.map fun row => row.map fun v => c * v

/-- Function `matSub`: the source compares only the row counts and the lengths of the
first rows (short-circuit order preserved); out-of-range element reads of B,
which yield NaN entries in JavaScript, are modelled with a default read, a
difference that cannot affect which branch is taken. -/
def matSub (A B : Mat) : Except MatrixError Mat :=
  if A.length ≠ B.length then Except.error MatrixError.shapeMismatch
  else if A.isEmpty then Except.error MatrixError.typeErr
  else if (A.headD []).length ≠ (B.headD []).length then Except.error MatrixError.shapeMismatch
  else
    Except.ok (A.mapIdx fun i row => row.mapIdx fun j v => v - (B.getD i []).getD j 0)

def cloneMat (A : Mat) : Mat := A.map fun row => row

/-- Element read `A[i][j]` with the conventional default for reads the source never makes
out of range on the paths verified here. -/
def entry (A : Mat) (i j : Nat) : ℚ := (A.getD i []).getD j 0

/-- The fixed singularity tolerance 1e-12. -/
def tol : ℚ := 1 / 1000000000000

/-- The partial-pivot scan: largest absolute value in the column at or below
the diagonal, earliest row winning ties. -/
def pivotSearch (A : Mat) (col n : Nat) : Nat :=
  (List.range' (col + 1) (n - (col + 1))).foldl
    (fun pivot r => if |entry A r col| > |entry A pivot col| then r else pivot) col

def swapRows (A : Mat) (i j : Nat) : Mat := (A.set i (A.getD j [])).set j (A.getD i [])

def swapVec (b : Vec) (i j : Nat) : Vec := (b.set i (b.getD j 0)).set j (b.getD i 0)

/-- The inner elimination loop over columns `col ≤ c < n` of row `r`. -/
def elimRow (A : Mat) (col r n : Nat) (factor : ℚ) : Mat :=
  (List.range' col (n - col)).foldl
    (fun M c => M.set r ((M.getD r []).set c (entry M r c - factor * entry M col c))) A

/-- The elimination loop over rows `col < r < n`. -/
def elimBelow (A : Mat) (b : Vec) (col n : Nat) : Mat × Vec :=
  (List.range' (col + 1) (n - (col + 1))).foldl
    (fun Ab r =>
      let factor := entry Ab.1 r col / entry Ab.1 col col
      (elimRow Ab.1 col r n factor,
       Ab.2.set r (Ab.2.getD r 0 - factor * Ab.2.getD col 0)))
    (A, b)

/-- The forward-elimination loop of `solveLinearSystem`, one fuel unit per
pivot column; the solver calls it with fuel `n` and starting column 0. -/
def forward (n : Nat) : Nat → Nat → Mat → Vec → Except MatrixError (Mat × Vec)
  | 0, _, A, b => Except.ok (A, b)
  | fuel + 1, col, A, b =>
    let p := pivotSearch A col n
    if |entry A p col| < tol then Except.error MatrixError.singularMatrix
    else
      let Ab := elimBelow (swapRows A col p) (swapVec b col p) col n
      forward n fuel (col + 1) Ab.1 Ab.2

/-- Back-substitution from the last row to the first. -/
def backSub (A : Mat) (b : Vec) (n : Nat) : Vec :=
  ((List.range n).reverse).foldl
    (fun x r =>
      x.set r
        (((List.range' (r + 1) (n - (r + 1))).foldl
            (fun s c => s - entry A r c * x.getD c 0) (b.getD r 0)) / entry A r r))
    (List.replicate n 0)

/-- Function `solveLinearSystem` from utils/matrix.ts. -/
def solveLinearSystem (Ain : Mat) (bIn : Vec) : Except MatrixError Vec :=
  let A := cloneMat Ain
  let b := bIn
  let n := A.length
  if b.length ≠ n then Except.error MatrixError.dimensionMismatch
  else
    match forward n n 0 A b with
    | Except.error e => Except.error e
    | Except.ok Ab => Except.ok (backSub Ab.1 Ab.2 n)

/-! Auxiliary definitions used by the statements below. -/

/-- Every whitespace character is a plain space. -/
def wsOk (c : Char) : Bool := !(isJsWs c) || c == ' '

/-- No two adjacent whitespace characters. -/
def noRun : List Char → Bool
  | a :: b :: t => (!(isJsWs a && isJsWs b)) && noRun (b :: t)
  | _ => true

/-- The expression produced by applying def-value to the start step. -/
def defValueOut : List Char := ("\\\\mathbb\x7bE\x7d[G_t\\\\mid S_t=s]").data

/-- The single-backslash substring named by the claim about def-value. -/
def c6Claimed : List Char := ("\\mathbb\x7bE\x7d[G_t\\mid S_t=s]").data

/-- The double-backslash form the def-value output actually contains. -/
def c6Amended : List Char := ("\\\\mathbb\x7bE\x7d[G_t\\\\mid S_t=s]").data

/-- An expression accepted by the define-r predicate: double backslashes
before mathbb and mid, ordinary braces. -/
def defineRProbe : List Char := ("\\\\mathbb\x7bE\x7d[R_\x7bt+1\x7d\\\\mid S_t=s]").data

/-- An expression on which the linearity transform succeeds while its
condition part carries a double space. -/
def linC5Input : List Char :=
  ("\\mathbb\x7bE\x7d[R_\x7bt+1\x7d + \\gamma X\\mid a  b]").data

/-- The output of the linearity transform on `linC5Input`; the double space
survives because this transform does not normalize. -/
def linC5Out : List Char :=
  ("\\mathbb\x7bE\x7d[R_\x7bt+1\x7d\\mid a  b] + \\gamma\\,\\mathbb\x7bE\x7d[X\\mid a  b]").data

/-- An expression accepted by the unroll-return predicate that lacks the
exact sum token demanded by its transform regex. -/
def unrollProbe : List Char := ("R_\x7bt+1+k\x7d").data

/-- The expected-form phrase carried inside the unroll-return error message. -/
def unrollExpectedForm : List Char :=
  ("\\\\sum_\x7bk=0\x7d^\x7b\\\\infty\x7d \\\\gamma^k R_\x7bt+1+k\x7d").data

/-- A generic step used to build concrete histories. -/
def demoStep : DerivationStep := { latex := ("v(s)").data }

/-! ### Whitespace-normalization theory -/

theorem noRun_tail (a : Char) (l : List Char) (h : noRun (a :: l) = true) :
    noRun l = true := by
  cases l with
  | nil => rfl
  | cons b t =>
    have h' : (isJsWs a = false ∨ isJsWs b = false) ∧ noRun (b :: t) = true := by
      simpa [noRun] using h
    exact h'.2

theorem noRun_cons (a : Char) (l : List Char) (h1 : noRun l = true)
    (h2 : ∀ c, l.head? = some c → (isJsWs a && isJsWs c) = false) :
    noRun (a :: l) = true := by
  cases l with
  | nil => rfl
  | cons b t => simp [noRun, h2 b rfl, h1]

theorem collapseGo_wsOk (s : List Char) : ∀ b, (collapseGo b s).all wsOk = true := by
  induction s with
  | nil => intro b; rfl
  | cons c r ih =>
    intro b
    cases hc : isJsWs c with
    | false => simp [collapseGo, hc, wsOk, ih false]
    | true =>
      cases b with
      | false => simp [collapseGo, hc, wsOk, ih true]
      | true => simpa [collapseGo, hc] using ih true

theorem collapseGo_head_true (s : List Char) :
    ∀ c, (collapseGo true s).head? = some c → isJsWs c = false := by
  induction s with
  | nil => intro c h; cases h
  | cons a r ih =>
    intro c h
    cases ha : isJsWs a with
    | false =>
      simp [collapseGo, ha] at h
      rw [← h]; exact ha
    | true =>
      simp only [collapseGo, ha, if_true] at h
      exact ih c h

theorem collapseGo_noRun (s : List Char) : ∀ b, noRun (collapseGo b s) = true := by
  induction s with
  | nil => intro b; rfl
  | cons c r ih =>
    intro b
    cases hc : isJsWs c with
    | false =>
      simp only [collapseGo, hc, Bool.false_eq_true, if_false]
      exact noRun_cons c _ (ih false) (fun d _ => by simp [hc])
    | true =>
      cases b with
      | false =>
        simp only [collapseGo, hc, if_true]
        refine noRun_cons ' ' _ (ih true) (fun d hd => ?_)
        simp [collapseGo_head_true r d hd]
      | true => simpa [collapseGo, hc] using ih true

theorem collapseGo_fix (s : List Char) (h1 : s.all wsOk = true) (h2 : noRun s = true) :
    collapseGo false s = s := by
  induction s with
  | nil => rfl
  | cons c r ih =>
    have h1t : r.all wsOk = true := by
      rw [List.all_cons] at h1; exact (Bool.and_eq_true _ _ |>.mp h1).2
    cases hc : isJsWs c with
    | false =>
      simp only [collapseGo, hc, Bool.false_eq_true, if_false]
      rw [ih h1t (noRun_tail c r h2)]
    | true =>
      have hsp : c = ' ' := by
        rw [List.all_cons] at h1
        have := (Bool.and_eq_true _ _ |>.mp h1).1
        simpa [wsOk, hc] using this
      cases r with
      | nil => simp [collapseGo, hc, hsp]
      | cons d t =>
        have hd : isJsWs d = false := by
          have h2' : (isJsWs c = false ∨ isJsWs d = false) ∧ noRun (d :: t) = true := by
            simpa [noRun] using h2
          rcases h2'.1 with hx | hx
          · rw [hc] at hx; cases hx
          · exact hx
        have ht : collapseGo false (d :: t) = d :: t :=
          ih h1t (noRun_tail c (d :: t) h2)
        rw [hsp] at hc ⊢
        have ht' : collapseGo false t = t := by
          have hcons := ht
          simp only [collapseGo, hd, Bool.false_eq_true, if_false] at hcons
          injection hcons
        simp [collapseGo, hc, hd, ht']

theorem noRun_suffix_drop {l t : List Char} (h : noRun (t ++ l) = true) :
    noRun l = true := by
  induction t with
  | nil => exact h
  | cons a t ih => exact ih (noRun_tail a (t ++ l) h)

theorem noRun_append_left {l t : List Char} (h : noRun (l ++ t) = true) :
    noRun l = true := by
  induction l with
  | nil => rfl
  | cons a l ih =>
    cases l with
    | nil => rfl
    | cons b l2 =>
      have h' : (isJsWs a = false ∨ isJsWs b = false) ∧ noRun (b :: (l2 ++ t)) = true := by
        simpa [noRun] using h
      have hm : noRun (b :: l2) = true := ih (by simpa using h'.2)
      rcases h'.1 with hx | hx <;> simp [noRun, hx, hm]

theorem noRun_dropWhileWs (l : List Char) (h : noRun l = true) :
    noRun (l.dropWhile isJsWs) = true := by
  obtain ⟨t, ht⟩ := List.dropWhile_suffix (l := l) isJsWs
  exact noRun_suffix_drop (ht ▸ h)

theorem trimJs_append_eq (s : List Char) :
    ∃ t : List Char, trimJs s ++ t = s.dropWhile isJsWs := by
  obtain ⟨t, ht⟩ := List.dropWhile_suffix (l := (s.dropWhile isJsWs).reverse) isJsWs
  refine ⟨t.reverse, ?_⟩
  have h2 := congrArg List.reverse ht
  simpa [trimJs, List.reverse_append] using h2

theorem noRun_trimJs (s : List Char) (h : noRun s = true) : noRun (trimJs s) = true := by
  obtain ⟨t, ht⟩ := trimJs_append_eq s
  exact noRun_append_left (ht ▸ noRun_dropWhileWs s h)

theorem all_wsOk_trimJs (s : List Char) (h : s.all wsOk = true) :
    (trimJs s).all wsOk = true := by
  rw [List.all_eq_true] at h ⊢
  intro c hc
  apply h
  rw [trimJs, List.mem_reverse] at hc
  have h1 := (List.dropWhile_sublist (l := (s.dropWhile isJsWs).reverse) isJsWs).subset hc
  rw [List.mem_reverse] at h1
  exact (List.dropWhile_sublist (l := s) isJsWs).subset h1

theorem head_dropWhile_ws (l : List Char) :
    ∀ c, (l.dropWhile isJsWs).head? = some c → isJsWs c = false := by
  induction l with
  | nil => intro c h; cases h
  | cons a r ih =>
    intro c h
    cases ha : isJsWs a with
    | false =>
      rw [List.dropWhile_cons_of_neg (by simp [ha])] at h
      cases h; exact ha
    | true =>
      rw [List.dropWhile_cons_of_pos (by simp [ha])] at h
      exact ih c h

theorem dropWhile_ws_of_head (l : List Char)
    (h : ∀ c, l.head? = some c → isJsWs c = false) : l.dropWhile isJsWs = l := by
  cases l with
  | nil => rfl
  | cons a r => exact List.dropWhile_cons_of_neg (by simp [h a rfl])

theorem getLast?_reverse_eq (l : List Char) : l.reverse.getLast? = l.head? := by
  have h := List.head?_reverse l.reverse
  simpa using h.symm

theorem trimJs_eq_self (l : List Char)
    (hh : ∀ c, l.head? = some c → isJsWs c = false)
    (hl : ∀ c, l.getLast? = some c → isJsWs c = false) : trimJs l = l := by
  rw [trimJs, dropWhile_ws_of_head l hh,
    dropWhile_ws_of_head l.reverse
      (fun c h => hl c (by rwa [List.head?_reverse] at h)),
    List.reverse_reverse]

theorem trimJs_getLast (s : List Char) :
    ∀ c, (trimJs s).getLast? = some c → isJsWs c = false := by
  intro c h
  rw [trimJs, getLast?_reverse_eq] at h
  exact head_dropWhile_ws _ c h

theorem trimJs_head (s : List Char) :
    ∀ c, (trimJs s).head? = some c → isJsWs c = false := by
  intro c h
  obtain ⟨t, ht⟩ := trimJs_append_eq s
  cases htr : trimJs s with
  | nil => rw [htr] at h; cases h
  | cons c0 cs =>
    rw [htr] at h
    have hc0 : c0 = c := by cases h; rfl
    have hm : (s.dropWhile isJsWs).head? = some c0 := by
      rw [← ht, htr]; rfl
    rw [← hc0]
    exact head_dropWhile_ws s c0 hm

theorem normalize_idem (s : List Char) : normalize (normalize s) = normalize s := by
  rw [normalize, normalize,
    collapseGo_fix (trimJs (collapseGo false s))
      (all_wsOk_trimJs _ (collapseGo_wsOk s false))
      (noRun_trimJs _ (collapseGo_noRun s false))]
  exact trimJs_eq_self _ (trimJs_head _) (trimJs_getLast _)

/-! ### Claim C1: applicableRules -/

theorem appliesPred_eq (e : List Char) (r : RewriteRule) :
    (match r.appliesTo e with | Except.ok b => b | Except.error _ => false) =
      decide (r.appliesTo e = Except.ok true) := by
  cases h : r.appliesTo e with
  | ok b => cases b <;> simp [h]
  | error m => simp [h]

/-- Claim C1: for every expression and catalog, `applicableRules` returns
exactly the order-preserving subsequence of rules whose predicate returns
true; a raising predicate only excludes its rule, and no exception escapes
(the function is total into a plain list). -/
theorem applicableRules_spec (e : List Char) (C : List RewriteRule) :
    applicableRules e C =
        C.filter (fun r => decide (r.appliesTo e = Except.ok true)) ∧
      List.Sublist (applicableRules e C) C ∧
      ∀ r ∈ applicableRules e C, r.appliesTo e = Except.ok true := by
  refine ⟨?_, List.filter_sublist C, ?_⟩
  · induction C with
    | nil => rfl
    | cons r t ih =>
      simp only [applicableRules, List.filter_cons] at ih ⊢
      rw [appliesPred_eq e r, ih]
  · intro r hr
    simp only [applicableRules] at hr
    have hp := (List.mem_filter.mp hr).2
    rw [appliesPred_eq e r] at hp
    exact of_decide_eq_true hp

/-- Witness for C1 at the start expression and the real catalog. -/
theorem applicableRules_spec_witness :
    defValueRule.appliesTo (("v(s)").data) = Except.ok true := by
  have hm : defValueRule ∈ applicableRules (("v(s)").data) mrpBellmanRules := by
    have h : applicableRules (("v(s)").data) mrpBellmanRules = [defValueRule] := rfl
    rw [h]; exact List.Mem.head _
  exact (applicableRules_spec (("v(s)").data) mrpBellmanRules).2.2 defValueRule hm

/-! ### Claim C4: history truncation -/

/-- Counterexample to C4 as stated: on a length-5 history with cursor 2,
advance yields a sequence of length 4, not 3. -/
theorem advance_truncation_counterexample :
    ((advance [demoStep, demoStep, demoStep, demoStep, demoStep] 2 demoStep).1).length ≠ 3 := by
  decide

/-- Claim C4 (amended): on a length-5 history with cursor 2, advance keeps
indices 0 to 2, appends the new step — so the result has length 4, not 3 —
discards old indices 3 and 4, and the cursor points at the new last index. -/
theorem advance_truncation_spec (steps : List DerivationStep) (h : steps.length = 5)
    (next : DerivationStep) :
    (advance steps 2 next).1 = steps.take 3 ++ [next] ∧
      ((advance steps 2 next).1).length = 4 ∧
      (advance steps 2 next).2 = 3 ∧
      (advance steps 2 next).2 = ((advance steps 2 next).1).length - 1 := by
  refine ⟨rfl, ?_, rfl, ?_⟩
  · simp [advance, List.length_take, h]
  · simp [advance, List.length_take, h]

/-- Witness for C4 (amended) on a concrete length-5 history. -/
theorem advance_truncation_witness :
    (([demoStep, demoStep, demoStep, demoStep, demoStep] : List DerivationStep).length = 5) ∧
      ((advance [demoStep, demoStep, demoStep, demoStep, demoStep] 2 demoStep).1 =
          ([demoStep, demoStep, demoStep, demoStep, demoStep] : List DerivationStep).take 3 ++
            [demoStep] ∧
        ((advance [demoStep, demoStep, demoStep, demoStep, demoStep] 2 demoStep).1).length = 4 ∧
        (advance [demoStep, demoStep, demoStep, demoStep, demoStep] 2 demoStep).2 = 3 ∧
        (advance [demoStep, demoStep, demoStep, demoStep, demoStep] 2 demoStep).2 =
          ((advance [demoStep, demoStep, demoStep, demoStep, demoStep] 2 demoStep).1).length - 1) :=
  ⟨rfl, advance_truncation_spec [demoStep, demoStep, demoStep, demoStep, demoStep] rfl demoStep⟩

/-! ### Claim C5: whitespace normalization of transform outputs -/

/-- Counterexample to C5 as stated: the linearity rule is in the catalog, its
transform succeeds on `linC5Input`, and its output is not a fixed point of
the normalization. -/
theorem transform_normalized_counterexample :
    linearityRule ∈ mrpBellmanRules ∧
      linearityRule.transform linC5Input = Except.ok linC5Out ∧
      normalize linC5Out ≠ linC5Out := by
  refine ⟨?_, rfl, by decide⟩
  exact List.Mem.tail _ (List.Mem.tail _ (List.Mem.tail _ (List.Mem.head _)))

/-- Claim C5 (amended): every catalog rule except the one with id linearity
returns whitespace-normalized output whenever its transform succeeds. -/
theorem transform_normalized_spec (r : RewriteRule) (hr : r ∈ mrpBellmanRules)
    (hid : r.id ≠ ("linearity").data) (e out : List Char)
    (h : r.transform e = Except.ok out) : normalize out = out := by
  simp only [mrpBellmanRules, List.mem_cons, List.not_mem_nil, or_false] at hr
  rcases hr with h1 | h1 | h1 | h1 | h1 | h1 | h1 | h1
  · subst h1
    simp only [defValueRule, Except.ok.injEq] at h
    rw [← h]; exact normalize_idem _
  · subst h1
    simp only [defReturnRule, Except.ok.injEq] at h
    rw [← h]; exact normalize_idem _
  · subst h1
    simp only [unrollReturnRule] at h
    split at h
    · rw [← (Except.ok.injEq _ _).mp h]; exact normalize_idem _
    · exact Except.noConfusion h
  · subst h1; exact absurd rfl hid
  · subst h1
    simp only [defineRRule, Except.ok.injEq] at h
    rw [← h]; exact normalize_idem _
  · subst h1
    simp only [totalExpectationRule, teTransform] at h
    split at h
    · exact Except.noConfusion h
    · rw [← (Except.ok.injEq _ _).mp h]; exact normalize_idem _
  · subst h1
    simp only [valueSubstitutionRule, Except.ok.injEq] at h
    rw [← h]; exact normalize_idem _
  · subst h1
    simp only [assembleBellmanRule] at h
    split at h
    · split at h
      · exact Except.noConfusion h
      · rw [← (Except.ok.injEq _ _).mp h]; decide
    · rw [← (Except.ok.injEq _ _).mp h]; decide

/-- Witness for C5 (amended): def-value on the start expression. -/
theorem transform_normalized_witness :
    defValueRule ∈ mrpBellmanRules ∧
      defValueRule.id ≠ ("linearity").data ∧
      defValueRule.transform (("v(s)").data) = Except.ok defValueOut ∧
      normalize defValueOut = defValueOut := by
  refine ⟨List.Mem.head _, by decide, rfl, ?_⟩
  exact transform_normalized_spec defValueRule (List.Mem.head _) (by decide)
    (("v(s)").data) defValueOut rfl

/-! ### Claim C6: def-value on the start step -/

/-- Counterexample to C6 as stated: applying def-value to the start step
succeeds, but the produced expression does not contain the single-backslash
substring named by the claim (the replacement carries doubled backslashes). -/
theorem defValue_substring_counterexample :
    Except.map (fun st => includesSub c6Claimed st.latex) (applyRule START defValueRule) =
      Except.ok false := rfl

/-- Claim C6 (amended): applying the catalog rule def-value to the start step
succeeds and yields a step whose expression contains the double-backslash
form of the expectation. -/
theorem defValue_substring_spec :
    Except.map (fun st => includesSub c6Amended st.latex) (applyRule START defValueRule) =
      Except.ok true := rfl

/-! ### Claim C7: unroll-return failure propagation -/

/-- Claim C7: on any step accepted by the unroll-return predicate whose
expression lacks the exact sum token of the transform regex, `applyRule`
propagates the RuleTransformError, whose message names the expected form. -/
theorem unroll_missing_sum_spec (st : DerivationStep)
    (_h1 : unrollReturnRule.appliesTo st.latex = Except.ok true)
    (h2 : testPat unrollPat st.latex = false) :
    applyRule st unrollReturnRule = Except.error unrollMsg ∧
      includesSub unrollExpectedForm unrollMsg = true := by
  refine ⟨?_, rfl⟩
  have ht : unrollReturnRule.transform st.latex = Except.error unrollMsg := by
    simp only [unrollReturnRule, h2, Bool.false_eq_true, if_false]
  simp only [applyRule, ht]

/-- Witness for C7 at a concrete probe expression. -/
theorem unroll_missing_sum_witness :
    (unrollReturnRule.appliesTo unrollProbe = Except.ok true) ∧
      (testPat unrollPat unrollProbe = false) ∧
      (applyRule { latex := unrollProbe } unrollReturnRule = Except.error unrollMsg ∧
        includesSub unrollExpectedForm unrollMsg = true) :=
  ⟨rfl, rfl, unroll_missing_sum_spec { latex := unrollProbe } rfl rfl⟩

/-! ### Claim C10: the silent no-op of define-r -/

/-- Claim C10: there is an expression — `defineRProbe`, with literal double
backslashes — accepted by the define-r predicate on which the transform
neither raises nor changes anything: it returns the input itself, the
replacement regex matching nothing. -/
theorem defineR_silent_noop_spec :
    defineRRule.appliesTo defineRProbe = Except.ok true ∧
      defineRRule.transform defineRProbe = Except.ok defineRProbe :=
  ⟨rfl, rfl⟩

/-! ### Matrix kernel lemmas -/

theorem foldl_fix {α β : Type} (f : α → β → α) (a : α) :
    ∀ l : List β, (∀ x ∈ l, f a x = a) → l.foldl f a = a := by
  intro l
  induction l with
  | nil => intro _; rfl
  | cons x t ih =>
    intro h
    rw [List.foldl_cons, h x (List.Mem.head _)]
    exact ih fun y hy => h y (List.Mem.tail _ hy)

theorem foldl_congr_on {α β : Type} (f g : α → β → α) (l : List β)
    (h : ∀ (x : α) (c : β), c ∈ l → f x c = g x c) : ∀ a, l.foldl f a = l.foldl g a := by
  induction l with
  | nil => intro a; rfl
  | cons x t ih =>
    intro a
    rw [List.foldl_cons, List.foldl_cons, h a x (List.Mem.head _)]
    exact ih (fun y c hc => h y c (List.Mem.tail _ hc)) _

theorem set_getD_self {α : Type} (d : α) :
    ∀ (l : List α) (i : Nat), l.set i (l.getD i d) = l := by
  intro l
  induction l with
  | nil => intro i; rfl
  | cons a t ih =>
    intro i
    cases i with
    | zero => rfl
    | succ j =>
      show a :: t.set j ((a :: t).getD (j + 1) d) = a :: t
      rw [List.getD_cons_succ, ih j]

theorem getD_set_self {α : Type} (d v : α) :
    ∀ (l : List α) (i : Nat), i < l.length → (l.set i v).getD i d = v := by
  intro l
  induction l with
  | nil => intro i h; exact absurd h (Nat.not_lt_zero i)
  | cons a t ih =>
    intro i h
    cases i with
    | zero => rfl
    | succ j =>
      show (a :: t.set j v).getD (j + 1) d = v
      rw [List.getD_cons_succ]
      exact ih j (by simpa using h)

theorem getD_set_ne {α : Type} (d v : α) :
    ∀ (l : List α) (i j : Nat), i ≠ j → (l.set i v).getD j d = l.getD j d := by
  intro l
  induction l with
  | nil => intro i j _; rfl
  | cons a t ih =>
    intro i j hne
    cases i with
    | zero =>
      cases j with
      | zero => exact absurd rfl hne
      | succ k => rfl
    | succ m =>
      cases j with
      | zero => rfl
      | succ k =>
        show (a :: t.set m v).getD (k + 1) d = (a :: t).getD (k + 1) d
        rw [List.getD_cons_succ, List.getD_cons_succ]
        exact ih m k fun hh => hne (by rw [hh])

theorem identity_length (n : Nat) : (identity n).length = n := by
  simp [identity]

theorem getD_map_range {α : Type} (d : α) (f : Nat → α) (n i : Nat) :
    ((List.range n).map f).getD i d = if i < n then f i else d := by
  by_cases h : i < n
  · rw [List.getD_eq_getElem?_getD, List.getElem?_map, List.getElem?_range h, if_pos h]
    rfl
  · rw [if_neg h, List.getD_eq_default]
    simpa [List.length_map, List.length_range] using Nat.le_of_not_lt h

theorem identity_entry (n i j : Nat) :
    entry (identity n) i j = if i < n ∧ j < n then (if i = j then (1 : ℚ) else 0) else 0 := by
  rw [entry, identity, getD_map_range]
  by_cases hi : i < n
  · rw [if_pos hi, getD_map_range]
    by_cases hj : j < n
    · simp [hi, hj]
    · simp [hi, hj]
  · simp [hi]

theorem identity_entry_diag (n i : Nat) (h : i < n) : entry (identity n) i i = 1 := by
  simp [identity_entry, h]

theorem identity_entry_off (n i j : Nat) (hij : i ≠ j) : entry (identity n) i j = 0 := by
  rw [identity_entry]
  by_cases h : i < n ∧ j < n
  · rw [if_pos h, if_neg hij]
  · rw [if_neg h]

theorem pivotSearch_identity (n col : Nat) (hcol : col < n) :
    pivotSearch (identity n) col n = col := by
  rw [pivotSearch]
  apply foldl_fix
  intro r hr
  rw [List.mem_range'_1] at hr
  rw [identity_entry_off n r col (by omega), identity_entry_diag n col hcol]
  norm_num

theorem swapRows_self (A : Mat) (i : Nat) : swapRows A i i = A := by
  rw [swapRows, List.set_set, set_getD_self]

theorem swapVec_self (b : Vec) (i : Nat) : swapVec b i i = b := by
  rw [swapVec, List.set_set, set_getD_self]

theorem elimRow_identity (n col r : Nat) :
    elimRow (identity n) col r n 0 = identity n := by
  rw [elimRow]
  apply foldl_fix
  intro c _
  have hrow : ((identity n).getD r []).set c
      (entry (identity n) r c - 0 * entry (identity n) col c) = (identity n).getD r [] := by
    rw [zero_mul, sub_zero, entry]
    exact set_getD_self 0 _ c
  rw [hrow]
  exact set_getD_self [] _ r

theorem elimBelow_identity (n col : Nat) (hcol : col < n) (b : Vec) :
    elimBelow (identity n) b col n = (identity n, b) := by
  rw [elimBelow]
  apply foldl_fix
  intro r hr
  rw [List.mem_range'_1] at hr
  have hfac : entry (identity n) r col / entry (identity n) col col = 0 := by
    rw [identity_entry_off n r col (by omega)]
    simp
  show (elimRow (identity n) col r n
        (entry (identity n) r col / entry (identity n) col col),
      b.set r (b.getD r 0 -
        (entry (identity n) r col / entry (identity n) col col) * b.getD col 0)) =
    (identity n, b)
  rw [hfac, elimRow_identity, zero_mul, sub_zero, set_getD_self]

theorem forward_identity (n : Nat) (b : Vec) :
    ∀ (fuel col : Nat), col + fuel = n →
      forward n fuel col (identity n) b = Except.ok (identity n, b) := by
  intro fuel
  induction fuel with
  | zero => intro col _; rfl
  | succ m ih =>
    intro col hcn
    have hcol : col < n := by omega
    simp only [forward]
    rw [pivotSearch_identity n col hcol, identity_entry_diag n col hcol]
    rw [if_neg (by rw [tol]; norm_num : ¬ |(1 : ℚ)| < tol)]
    rw [swapRows_self, swapVec_self, elimBelow_identity n col hcol b]
    exact ih (col + 1) (by omega)

theorem foldl_setb_length (b : Vec) :
    ∀ (L : List Nat) (x : Vec),
      (L.foldl (fun x r => x.set r (b.getD r 0)) x).length = x.length := by
  intro L
  induction L with
  | nil => intro x; rfl
  | cons r t ih =>
    intro x
    rw [List.foldl_cons, ih]
    simp

theorem foldl_setb_notMem (b : Vec) :
    ∀ (L : List Nat) (x : Vec) (i : Nat), i ∉ L →
      (L.foldl (fun x r => x.set r (b.getD r 0)) x).getD i 0 = x.getD i 0 := by
  intro L
  induction L with
  | nil => intro x i _; rfl
  | cons r t ih =>
    intro x i hi
    rw [List.foldl_cons, ih _ i fun h => hi (List.Mem.tail _ h)]
    exact getD_set_ne 0 _ x r i fun h => hi (by rw [h]; exact List.Mem.head _)

theorem foldl_setb_mem (b : Vec) :
    ∀ (L : List Nat) (x : Vec) (i : Nat), i ∈ L → i < x.length →
      (L.foldl (fun x r => x.set r (b.getD r 0)) x).getD i 0 = b.getD i 0 := by
  intro L
  induction L with
  | nil => intro x i hi _; cases hi
  | cons r t ih =>
    intro x i hi hlen
    rw [List.foldl_cons]
    by_cases hit : i ∈ t
    · exact ih _ i hit (by simpa using hlen)
    · have hir : r = i := by
        rcases List.mem_cons.mp hi with h | h
        · exact h.symm
        · exact absurd h hit
      subst hir
      rw [foldl_setb_notMem b t _ r hit]
      exact getD_set_self 0 (b.getD r 0) x r hlen

theorem eq_of_getD : ∀ u v : Vec, u.length = v.length →
    (∀ i, i < u.length → u.getD i 0 = v.getD i 0) → u = v := by
  intro u
  induction u with
  | nil =>
    intro v hl _
    cases v with
    | nil => rfl
    | cons c w => exact absurd hl (by simp)
  | cons a t ih =>
    intro v hl hp
    cases v with
    | nil => exact absurd hl (by simp)
    | cons c w =>
      have h0 := hp 0 (by simp)
      simp only [List.getD_cons_zero] at h0
      have ht : t = w := by
        refine ih w (by simpa using hl) fun i hi => ?_
        have := hp (i + 1) (by simpa using Nat.succ_lt_succ hi)
        simpa [List.getD_cons_succ] using this
      rw [h0, ht]

theorem backSub_identity (n : Nat) (b : Vec) (hb : b.length = n) :
    backSub (identity n) b n = b := by
  rw [backSub]
  have hstep : ∀ (x : Vec) (r : Nat), r ∈ (List.range n).reverse →
      x.set r (((List.range' (r + 1) (n - (r + 1))).foldl
          (fun s c => s - entry (identity n) r c * x.getD c 0) (b.getD r 0)) /
        entry (identity n) r r) =
      x.set r (b.getD r 0) := by
    intro x r hr
    rw [List.mem_reverse, List.mem_range] at hr
    have hsum : (List.range' (r + 1) (n - (r + 1))).foldl
        (fun s c => s - entry (identity n) r c * x.getD c 0) (b.getD r 0) = b.getD r 0 := by
      apply foldl_fix
      intro c hc
      rw [List.mem_range'_1] at hc
      rw [identity_entry_off n r c (by omega)]
      ring
    rw [hsum, identity_entry_diag n r hr, div_one]
  rw [foldl_congr_on _ (fun x r => x.set r (b.getD r 0)) _ hstep (List.replicate n 0)]
  apply eq_of_getD
  · rw [foldl_setb_length]
    simp [hb]
  · intro i hi
    rw [foldl_setb_length, List.length_replicate] at hi
    exact foldl_setb_mem b _ _ i (by simp [hi]) (by simp [hi])

theorem cloneMat_eq (A : Mat) : cloneMat A = A := by
  rw [cloneMat]
  exact List.map_id' A

/-! ### Claim C3: solve on the identity matrix -/

/-- Claim C3: for `n ≥ 1` and any vector `b` of length `n`, solving against
the identity matrix succeeds and returns `b` itself exactly; the partial
pivot chosen in every column is the diagonal. -/
theorem solve_identity_spec (n : Nat) (hn : 1 ≤ n) (b : Vec) (hb : b.length = n) :
    (∀ col, col < n → pivotSearch (identity n) col n = col) ∧
      solveLinearSystem (identity n) b = Except.ok b := by
  refine ⟨fun col hcol => pivotSearch_identity n col hcol, ?_⟩
  have hfwd := forward_identity n b n 0 (by omega)
  simp only [solveLinearSystem, cloneMat_eq, identity_length]
  rw [if_neg (show ¬ b.length ≠ n by omega)]
  rw [hfwd]
  show Except.ok (backSub (identity n) b n) = Except.ok b
  rw [backSub_identity n b hb]

/-- Witness for C3 at `n = 2`, `b = [5, 7]`. -/
theorem solve_identity_witness :
    (1 ≤ 2) ∧ (([5, 7] : Vec).length = 2) ∧
      ((∀ col, col < 2 → pivotSearch (identity 2) col 2 = col) ∧
        solveLinearSystem (identity 2) [5, 7] = Except.ok [5, 7]) :=
  ⟨by omega, rfl, solve_identity_spec 2 (by omega) [5, 7] rfl⟩

/-! ### Claim C2: singularity detection -/

theorem forward_add (n : Nat) :
    ∀ (f1 f2 col : Nat) (A : Mat) (b : Vec),
      forward n (f1 + f2) col A b =
        match forward n f1 col A b with
        | Except.error e => Except.error e
        | Except.ok Ab => forward n f2 (col + f1) Ab.1 Ab.2 := by
  intro f1
  induction f1 with
  | zero =>
    intro f2 col A b
    simp [forward]
  | succ m ih =>
    intro f2 col A b
    rw [show m + 1 + f2 = (m + f2) + 1 by omega]
    simp only [forward]
    by_cases hp : |entry A (pivotSearch A col n) col| < tol
    · simp [hp]
    · simp only [hp, if_false]
      rw [ih]
      rw [show col + (m + 1) = col + 1 + m by omega]

/-- Claim C2: whenever forward elimination reaches a column whose chosen
pivot has absolute value below the tolerance 1e-12, the solver fails with
SingularMatrix; in particular it does so on A = [[1,1],[1,1]], b = [1,2]. -/
theorem solve_singular_spec :
    (∀ (A : Mat) (b : Vec) (col : Nat) (Ab : Mat × Vec),
        b.length = A.length → col < A.length →
        forward A.length col 0 A b = Except.ok Ab →
        |entry Ab.1 (pivotSearch Ab.1 col A.length) col| < tol →
        solveLinearSystem A b = Except.error MatrixError.singularMatrix) ∧
      solveLinearSystem [[1, 1], [1, 1]] [1, 2] = Except.error MatrixError.singularMatrix := by
  have hgen : ∀ (A : Mat) (b : Vec) (col : Nat) (Ab : Mat × Vec),
      b.length = A.length → col < A.length →
      forward A.length col 0 A b = Except.ok Ab →
      |entry Ab.1 (pivotSearch Ab.1 col A.length) col| < tol →
      solveLinearSystem A b = Except.error MatrixError.singularMatrix := by
    intro A b col Ab hb hcol hfwd hpiv
    have hsplit : col + (A.length - col) = A.length := Nat.add_sub_cancel' (Nat.le_of_lt hcol)
    have hdecomp := forward_add A.length col (A.length - col) 0 A b
    rw [hsplit, hfwd] at hdecomp
    have hdecomp2 : forward A.length A.length 0 A b =
        forward A.length (A.length - col) (0 + col) Ab.1 Ab.2 := hdecomp
    have hsing : forward A.length A.length 0 A b = Except.error MatrixError.singularMatrix := by
      rw [hdecomp2, Nat.zero_add,
        show A.length - col = (A.length - col - 1) + 1 from
          (Nat.succ_pred_eq_of_pos (by omega)).symm]
      simp only [forward]
      rw [if_pos hpiv]
    simp only [solveLinearSystem, cloneMat_eq]
    rw [if_neg (show ¬ b.length ≠ A.length by omega), hsing]
  refine ⟨hgen, ?_⟩
  have hfwd1 : forward 2 1 0 ([[1, 1], [1, 1]] : Mat) ([1, 2] : Vec) =
      Except.ok ([[1, 1], [0, 0]], [1, 1]) := by
    rw [show (1 : Nat) = 0 + 1 from rfl]
    simp only [forward]
    norm_num [pivotSearch, entry, tol, List.range', elimBelow, elimRow, swapRows, swapVec]
  have hpiv1 : |entry ([[1, 1], [0, 0]] : Mat)
      (pivotSearch ([[1, 1], [0, 0]] : Mat) 1 2) 1| < tol := by
    norm_num [pivotSearch, entry, tol, List.range']
  exact hgen [[1, 1], [1, 1]] [1, 2] 1 ([[1, 1], [0, 0]], [1, 1]) (by simp) (by simp) hfwd1 hpiv1

/-- Witness for C2's universal part at the concrete singular system. -/
theorem solve_singular_witness :
    (([1, 2] : Vec).length = ([[1, 1], [1, 1]] : Mat).length) ∧
      (1 < ([[1, 1], [1, 1]] : Mat).length) ∧
      (forward ([[1, 1], [1, 1]] : Mat).length 1 0 [[1, 1], [1, 1]] [1, 2] =
        Except.ok ([[1, 1], [0, 0]], [1, 1])) ∧
      (|entry ([[1, 1], [0, 0]] : Mat)
          (pivotSearch ([[1, 1], [0, 0]] : Mat) 1 ([[1, 1], [1, 1]] : Mat).length) 1| < tol) ∧
      solveLinearSystem [[1, 1], [1, 1]] [1, 2] = Except.error MatrixError.singularMatrix := by
  have hfwd1 : forward 2 1 0 ([[1, 1], [1, 1]] : Mat) ([1, 2] : Vec) =
      Except.ok ([[1, 1], [0, 0]], [1, 1]) := by
    rw [show (1 : Nat) = 0 + 1 from rfl]
    simp only [forward]
    norm_num [pivotSearch, entry, tol, List.range', elimBelow, elimRow, swapRows, swapVec]
  have hpiv1 : |entry ([[1, 1], [0, 0]] : Mat)
      (pivotSearch ([[1, 1], [0, 0]] : Mat) 1 2) 1| < tol := by
    norm_num [pivotSearch, entry, tol, List.range']
  exact ⟨by simp, by simp,
    hfwd1, hpiv1,
    solve_singular_spec.1 [[1, 1], [1, 1]] [1, 2] 1 ([[1, 1], [0, 0]], [1, 1])
      (by simp) (by simp) hfwd1 hpiv1⟩

/-! ### Claim C8: subtract and shape checking -/

theorem mapIdx_sub_row : ∀ ra rb : List ℚ, ra.length = rb.length →
    (ra.mapIdx fun j v => v - rb.getD j 0) = List.zipWith (fun x y => x - y) ra rb := by
  intro ra
  induction ra with
  | nil => intro rb _; rfl
  | cons a t ih =>
    intro rb hl
    cases rb with
    | nil => exact absurd hl (by simp)
    | cons c w =>
      rw [List.mapIdx_cons, List.zipWith_cons_cons]
      simp only [List.getD_cons_zero, List.getD_cons_succ]
      rw [ih w (by simpa using hl)]

theorem mapIdx_sub_mat : ∀ A B : Mat, A.length = B.length →
    (∀ i, (A.getD i []).length = (B.getD i []).length) →
    (A.mapIdx fun i row => row.mapIdx fun j v => v - (B.getD i []).getD j 0) =
      List.zipWith (fun ra rb => List.zipWith (fun x y => x - y) ra rb) A B := by
  intro A
  induction A with
  | nil => intro B _ _; rfl
  | cons a t ih =>
    intro B hl hrows
    cases B with
    | nil => exact absurd hl (by simp)
    | cons c w =>
      rw [List.mapIdx_cons, List.zipWith_cons_cons]
      simp only [List.getD_cons_zero, List.getD_cons_succ]
      rw [mapIdx_sub_row a c (by simpa using hrows 0)]
      rw [ih w (by simpa using hl) fun i => by simpa using hrows (i + 1)]

theorem getD_length_of_rows (C : Mat) (m : Nat) (hC : ∀ r ∈ C, r.length = m) (i : Nat) :
    (C.getD i []).length = if i < C.length then m else 0 := by
  by_cases h : i < C.length
  · rw [if_pos h, List.getD_eq_getElem _ _ h]
    exact hC _ (List.getElem_mem h)
  · rw [if_neg h, List.getD_eq_default _ _ (Nat.le_of_not_lt h)]
    rfl

/-- Counterexample to C8 as stated: these matrices differ in the column count
of their second rows, yet subtract does not fail with ShapeMismatch (only row
count and first-row length are compared). -/
theorem matSub_shape_counterexample :
    matSub [[1], [2, 3]] [[1], [2]] ≠ Except.error MatrixError.shapeMismatch := by
  rw [matSub]
  simp

/-- Claim C8 (amended): subtract fails with ShapeMismatch when the row counts
differ or the first rows differ in length; on equal-shaped nonempty
rectangular matrices it returns the elementwise difference.  Ragged shape
differences beyond the first row are not detected. -/
theorem matSub_shape_spec :
    (∀ (A B : Mat) (m : Nat), A.length = B.length → A ≠ [] →
        (∀ r ∈ A, r.length = m) → (∀ r ∈ B, r.length = m) →
        matSub A B =
          Except.ok (List.zipWith (fun ra rb => List.zipWith (fun x y => x - y) ra rb) A B)) ∧
      (∀ A B : Mat,
        A.length ≠ B.length ∨ (A ≠ [] ∧ (A.headD []).length ≠ (B.headD []).length) →
        matSub A B = Except.error MatrixError.shapeMismatch) := by
  constructor
  · intro A B m hl hne hA hB
    cases A with
    | nil => exact absurd rfl hne
    | cons a0 At =>
      cases B with
      | nil => exact absurd hl (by simp)
      | cons b0 Bt =>
        have ha0 : a0.length = m := hA a0 (List.Mem.head _)
        have hb0 : b0.length = m := hB b0 (List.Mem.head _)
        rw [matSub]
        rw [if_neg (fun h => h hl)]
        rw [if_neg (by simp : ¬ ((a0 :: At).isEmpty = true))]
        rw [if_neg (fun h => h (by rw [show ((a0 :: At) : Mat).headD [] = a0 from rfl,
          show ((b0 :: Bt) : Mat).headD [] = b0 from rfl, ha0, hb0]))]
        congr 1
        apply mapIdx_sub_mat _ _ hl
        intro i
        rw [getD_length_of_rows _ m hA i, getD_length_of_rows _ m hB i, hl]
  · intro A B hcase
    by_cases hlen : A.length = B.length
    · rcases hcase with hbad | ⟨hne, hhead⟩
      · exact absurd hlen hbad
      · cases A with
        | nil => exact absurd rfl hne
        | cons a0 At =>
          rw [matSub]
          rw [if_neg (fun h => h hlen)]
          rw [if_neg (by simp : ¬ ((a0 :: At).isEmpty = true))]
          rw [if_pos hhead]
    · rw [matSub, if_pos hlen]

/-- Witness for C8 (amended), both in the success branch and in the
ShapeMismatch branch. -/
theorem matSub_shape_witness :
    (([[1, 2], [3, 4]] : Mat).length = ([[0, 1], [1, 2]] : Mat).length) ∧
      (([[1, 2], [3, 4]] : Mat) ≠ []) ∧
      (matSub [[1, 2], [3, 4]] [[0, 1], [1, 2]] =
        Except.ok (List.zipWith (fun ra rb => List.zipWith (fun x y => x - y) ra rb)
          [[1, 2], [3, 4]] [[0, 1], [1, 2]])) ∧
      matSub [[1, 2], [3, 4]] [[9], [9], [9]] = Except.error MatrixError.shapeMismatch := by
  have hA : ∀ r ∈ ([[1, 2], [3, 4]] : Mat), r.length = 2 := by
    intro r hr
    simp only [List.mem_cons, List.not_mem_nil, or_false] at hr
    rcases hr with h | h <;> subst h <;> rfl
  have hB : ∀ r ∈ ([[0, 1], [1, 2]] : Mat), r.length = 2 := by
    intro r hr
    simp only [List.mem_cons, List.not_mem_nil, or_false] at hr
    rcases hr with h | h <;> subst h <;> rfl
  refine ⟨rfl, by simp, ?_, ?_⟩
  · exact matSub_shape_spec.1 [[1, 2], [3, 4]] [[0, 1], [1, 2]] 2 rfl (by simp) hA hB
  · exact matSub_shape_spec.2 [[1, 2], [3, 4]] [[9], [9], [9]] (Or.inl (by simp))

end BDP
